import Mathlib

/-!
Verification of the Donor-Rewards-Bot donation pipeline.

The source repository is a Discord bot that watches tip.cc payment
announcements, converts the tipped amount to USD and grants lottery-style
"entries" into configured draws, plus donor roles and achievements.  The
single source file is a concatenation of four modules; two of them are
alternative versions of the message handler (`handleTipccDonation`,
`assignDonorRoles`, the recipient matcher).  Definitions below carry the
line numbers of the JavaScript they embed.  Amounts (JS floating point
numbers holding USD values) are modelled as rationals; entry counts are
modelled as `ℕ∞` because `Math.floor(x / 0) = Infinity` in JavaScript can
put `Infinity` into a draw's entry ledger.
-/

namespace DonorRewards

abbrev UserId := String
abbrev DrawId := String

/-- Characters removed by `replace(/[@<>!]/g, '')` in the recipient matchers. -/
def decorationChars : List Char := ['@', '<', '>', '!']

/-- The `replace(/[@<>!]/g, '')` cleaning applied to recipients and
allowed-list entries. -/
def cleanName (s : String) : String :=
  ⟨s.data.filter (fun c => ¬ decorationChars.contains c)⟩

/-- JavaScript `toLowerCase()` on the character data of a string. -/
def lowerStr (s : String) : String :=
  ⟨s.data.map Char.toLower⟩

/-- JavaScript `toUpperCase()` on the character data of a string. -/
def upperStr (s : String) : String :=
  ⟨s.data.map Char.toUpper⟩

/-- Does `needle` occur at the very start of `hay`? -/
def startsSeg : List Char → List Char → Bool
  | [], _ => true
  | _ :: _, [] => false
  | c :: cs, d :: ds => c = d && startsSeg cs ds

/-- JavaScript `hay.includes(needle)` on character lists: `needle` occurs
contiguously somewhere in `hay`. -/
def containsSeg (needle : List Char) : List Char → Bool
  | [] => startsSeg needle []
  | c :: t => startsSeg needle (c :: t) || containsSeg needle t

/-- JavaScript `hay.includes(needle)` on strings. -/
def jsIncludes (hay needle : String) : Bool :=
  containsSeg needle.data hay.data

/-- An element of `config.allowedRecipients`.  The matchers guard with
`typeof allowed !== 'string'`, so corrupted non-string entries are
represented explicitly. -/
inductive ConfigEntry where
  | str (s : String)
  | nonString
deriving DecidableEq

/-- Recipient matcher of the first message handler (help.js lines
1963-1979): cleans both sides with `replace(/[@<>!]/g, '')` and compares
with `===` (no case folding, no containment). -/
def isAllowedRecipientExact (allowedRecipients : List ConfigEntry)
    (recipient : String) : Bool :=
  allowedRecipients.any fun allowed =>
    match allowed with
    | .nonString => false
    | .str a => cleanName a = cleanName recipient

/-- Recipient matcher of the second message handler (help.js lines
2563-2578): cleans and lower-cases both sides, then accepts on substring
containment in either direction. -/
def isAllowedRecipientLoose (allowedRecipients : List ConfigEntry)
    (recipientToCheck : String) : Bool :=
  let cleanRecipient := lowerStr (cleanName recipientToCheck)
  allowedRecipients.any fun allowed =>
    match allowed with
    | .nonString => false
    | .str a =>
      let cleanAllowed := lowerStr (cleanName a)
      jsIncludes cleanRecipient cleanAllowed || jsIncludes cleanAllowed cleanRecipient

/-- Digits as a natural number, `foldl`-style (the value of a `\d+` capture). -/
def digitsVal (ds : List Char) : ℕ :=
  ds.foldl (fun n c => 10 * n + (c.toNat - '0'.toNat)) 0

/-- Match the tail of the regex `\$(\d+\.?\d*)` right after a `$` sign and
return `parseFloat` of the capture: one or more digits, an optional dot,
then any number of digits (help.js lines 2158-2160). -/
def matchDollarAt (cs : List Char) : Option ℚ :=
  let intPart := cs.takeWhile Char.isDigit
  if intPart.isEmpty then none
  else
    match cs.dropWhile Char.isDigit with
    | '.' :: rest =>
      let fracPart := rest.takeWhile Char.isDigit
      some ((digitsVal intPart : ℚ) + (digitsVal fracPart : ℚ) / (10 : ℚ) ^ fracPart.length)
    | _ => some (digitsVal intPart : ℚ)

/-- Leftmost match of `\$(\d+\.?\d*)`: scan positions left to right, try
the pattern at each `$`, and continue scanning past a `$` that is not
followed by a digit. -/
def findDollarMatch : List Char → Option ℚ
  | [] => none
  | c :: rest =>
    if c = '$' then
      match matchDollarAt rest with
      | some q => some q
      | none => findDollarMatch rest
    else findDollarMatch rest

/-- Embeds `extractPriceFromTipMessage` (help.js lines 2155-2173): look
for a `\$(\d+\.?\d*)` pattern in the message text and return the parsed
total price; the `amount` parameter of the source function is unused. -/
def extractPriceFromTipMessage (content : String) : Option ℚ :=
  findDollarMatch content.data

/-- Embeds `getCryptoPrice` (help.js lines 2177-2198).  Each element of
`providerResults` is the outcome of one provider call in priority order
(CoinGecko, CoinPaprika, CoinMarketCap): `none` for a thrown error or a
`null` price, `some p` for a returned price `p`.  The source keeps the
first result with `price && price > 0` and returns `price * amount`. -/
def getCryptoPrice (providerResults : List (Option ℚ)) (amount : ℚ) : Option ℚ :=
  match providerResults with
  | [] => none
  | r :: rest =>
    match r with
    | some price =>
      if 0 < price then some (price * amount) else getCryptoPrice rest amount
    | none => getCryptoPrice rest amount

/-- Price resolution as composed by the handler (help.js lines 1988-1993):
`extractPriceFromTipMessage` first, and if its result is falsy (`null` or
`0`) fall back to `getCryptoPrice`. -/
def resolveUsdValue (content : String) (amount : ℚ)
    (providerResults : List (Option ℚ)) : Option ℚ :=
  match extractPriceFromTipMessage content with
  | some p => if p = 0 then getCryptoPrice providerResults amount else some p
  | none => getCryptoPrice providerResults amount

/-- Streak record `{current, longest, lastDonation}` of a user. -/
structure Streaks where
  current : ℕ
  longest : ℕ
  lastDonation : Option ℕ
deriving DecidableEq

/-- One element of a user's `donations` array. -/
structure Donation where
  amount : ℚ
  currency : String
  originalAmount : ℚ
  timestamp : ℕ
  recipient : String
deriving DecidableEq

/-- A user record in `db.users`.  Fields never read or written by the
embedded operations are omitted.  `referredBy` is the top-level field the
achievement code reads (`user.referredBy`); an absent JS field is `none`. -/
structure UserData where
  totalDonated : ℚ
  entries : List (DrawId × ℕ∞)
  donations : List Donation
  achievements : List String
  privacyEnabled : Bool
  wins : ℕ
  referredBy : Option UserId
  streaks : Streaks
  selectedDraw : Option String
deriving DecidableEq

/-- A draw in `db.donationDraws`.  The entry ledger is an association
list mirroring the JS object `draw.entries`; counts live in `ℕ∞` because
the allocation code can write `Infinity` (division by a zero
`minAmount`).  An absent `maxAmount`/`maxEntries` is `none`. -/
structure Draw where
  name : String
  minAmount : ℚ
  maxAmount : Option ℚ
  maxEntries : Option ℕ
  vipOnly : Bool
  manualEntriesOnly : Bool
  active : Bool
  entries : List (UserId × ℕ∞)
  winner : Option UserId
deriving DecidableEq

/-- One configured donor tier role (`db.config.donorRoles` values, and
the entries of the static `CONFIG.DONOR_ROLES` table). -/
structure DonorRole where
  id : String
  roleName : String
  minAmount : ℚ
  maxAmount : Option ℚ
deriving DecidableEq

/-- The `config.globalBlacklist` document written by `handleBlacklist`
(help.js lines 1338-1426); entries are kept as user / role ids. -/
structure Blacklist where
  users : List UserId
  roles : List String
deriving DecidableEq

/-- Per-guild configuration, restricted to the fields the embedded
operations touch. -/
structure Config where
  allowedRecipients : List ConfigEntry
  acceptedCryptocurrencies : Option (List String)
  vipRoleId : Option String
  donorRoles : List DonorRole
  globalBlacklist : Blacklist
deriving DecidableEq

/-- The per-guild database document. -/
structure Db where
  users : List (UserId × UserData)
  donationDraws : List (DrawId × Draw)
  config : Config
deriving DecidableEq

/-- The user object created on first contact (help.js lines 2040-2053 and
1040-1049).  An absent JS field behaves as its default here. -/
def freshUser : UserData where
  totalDonated := 0
  entries := []
  donations := []
  achievements := []
  privacyEnabled := false
  wins := 0
  referredBy := none
  streaks := ⟨0, 0, none⟩
  selectedDraw := none

/-- Read `obj[k]` from an association list (first occurrence wins, like a
JS object whose keys are unique). -/
def getEntry : List (String × α) → String → Option α
  | [], _ => none
  | (k', v) :: t, k => if k' = k then some v else getEntry t k

/-- Write `obj[k] = v`: replace the first binding of `k`, or append a new
one when `k` is absent. -/
def putEntry : List (String × α) → String → α → List (String × α)
  | [], k, v => [(k, v)]
  | (k', v') :: t, k, v =>
    if k' = k then (k, v) :: t else (k', v') :: putEntry t k v

/-- The idiom `if (!obj[k]) obj[k] = 0; obj[k] += n` on an entry ledger. -/
def bumpEntry : List (String × ℕ∞) → String → ℕ∞ → List (String × ℕ∞)
  | [], k, n => [(k, n)]
  | (k', v) :: t, k, n =>
    if k' = k then (k', v + n) :: t else (k', v) :: bumpEntry t k n

/-- `Object.values(draw.entries).reduce((sum, count) => sum + count, 0)`. -/
def entriesTotal (ledger : List (UserId × ℕ∞)) : ℕ∞ :=
  (ledger.map Prod.snd).sum

/-- JavaScript `Math.floor(usdValue / draw.minAmount)` read as an extended
natural: division of a positive value by zero yields `Infinity` (`⊤`), and
a negative quotient is collapsed to `0`, which the caller's
`entries <= 0` guard then skips exactly as the source does.  (The source
never divides `0 / 0`: a zero `usdValue` aborts the pipeline earlier.) -/
def jsEntriesCalc (v m : ℚ) : ℕ∞ :=
  if m = 0 then ⊤ else ((⌊v / m⌋).toNat : ℕ∞)

/-- Truthiness of `draw.maxAmount && usdValue > draw.maxAmount`: an unset
or zero `maxAmount` is falsy, so it never blocks. -/
def maxAmountBlocks (v : ℚ) : Option ℚ → Bool
  | none => false
  | some m => m ≠ 0 && v > m

/-- Truthiness of `selectedDrawId && selectedDrawId !== 'auto'`: an unset
or empty `selectedDraw` is falsy and does not restrict allocation. -/
def selectedDrawRestricts : Option String → Bool
  | none => false
  | some s => s ≠ "" && s ≠ "auto"

/-- The VIP gate `if (draw.vipOnly && db.config?.vipRoleId)` followed by
`member.roles.cache.has(vipRoleId)`: blocks only when the draw is
VIP-only, a (truthy) VIP role is configured, and the member lacks it. -/
def vipBlocks (vipOnly : Bool) (vipRoleId : Option String)
    (memberRoles : List String) : Bool :=
  vipOnly &&
    match vipRoleId with
    | none => false
    | some r => r ≠ "" && ¬ memberRoles.contains r

/-- One iteration of the allocation loop of the first message handler
(help.js lines 2101-2124) for a single draw: `none` when the draw is
skipped by any guard, otherwise the updated draw and the granted entry
count (`entriesToAdd`).  The capacity guard and the clamp reproduce the
JS truthiness of `draw.maxEntries`: a zero `maxEntries` is falsy, so the
draw is treated as unbounded. -/
def processDrawEntry (cfg : Config) (memberRoles : List String)
    (selectedDraw : Option String) (senderId : UserId) (v : ℚ)
    (drawId : DrawId) (draw : Draw) : Option (Draw × ℕ∞) :=
  if ¬ draw.active then none
  else if v < draw.minAmount ∨ maxAmountBlocks v draw.maxAmount then none
  else if draw.manualEntriesOnly then none
  else if selectedDrawRestricts selectedDraw ∧ selectedDraw ≠ some drawId then none
  else if vipBlocks draw.vipOnly cfg.vipRoleId memberRoles then none
  else
    let entries := jsEntriesCalc v draw.minAmount
    if entries = 0 then none
    else
      let currentEntries := entriesTotal draw.entries
      let capBlocked :=
        match draw.maxEntries with
        | none => false
        | some m => m ≠ 0 ∧ (m : ℕ∞) ≤ currentEntries
      if capBlocked then none
      else
        let entriesToAdd :=
          match draw.maxEntries with
          | none => entries
          | some m => if m = 0 then entries else min entries ((m : ℕ∞) - currentEntries)
        some ({ draw with entries := bumpEntry draw.entries senderId entriesToAdd },
              entriesToAdd)

/-- The entry count the allocation loop grants a single draw (`0` when the
draw is skipped). -/
def drawGrant (cfg : Config) (memberRoles : List String)
    (selectedDraw : Option String) (senderId : UserId) (v : ℚ)
    (drawId : DrawId) (draw : Draw) : ℕ∞ :=
  match processDrawEntry cfg memberRoles selectedDraw senderId v drawId draw with
  | none => 0
  | some (_, g) => g

/-- The full allocation loop `for (const [drawId, draw] of
Object.entries(db.donationDraws))` (help.js lines 2096-2130): returns the
updated draw list, the user's updated per-draw entry map, and
`entriesAdded`. -/
def processDraws (cfg : Config) (memberRoles : List String)
    (selectedDraw : Option String) (senderId : UserId) (v : ℚ) :
    List (DrawId × Draw) → List (DrawId × ℕ∞) →
      List (DrawId × Draw) × List (DrawId × ℕ∞) × ℕ∞
  | [], userEntries => ([], userEntries, 0)
  | (drawId, draw) :: rest, userEntries =>
    match processDrawEntry cfg memberRoles selectedDraw senderId v drawId draw with
    | none =>
      let (ds, ue, tot) :=
        processDraws cfg memberRoles selectedDraw senderId v rest userEntries
      ((drawId, draw) :: ds, ue, tot)
    | some (draw', g) =>
      let (ds, ue, tot) :=
        processDraws cfg memberRoles selectedDraw senderId v rest
          (bumpEntry userEntries drawId g)
      ((drawId, draw') :: ds, ue, g + tot)

/-- Milliseconds in a day (`24 * 60 * 60 * 1000`). -/
def oneDayMs : ℕ := 24 * 60 * 60 * 1000

/-- Embeds `updateDonationStreak` (help.js lines 2299-2331): within 24h
the streak increments, within 48h it is kept, beyond that it resets to 1;
`longest` and `lastDonation` are updated unconditionally.  (ℕ subtraction
is truncated, which agrees with the source: a non-positive elapsed time
falls in the `<= 24h` branch.) -/
def updateDonationStreak (now : ℕ) (u : UserData) : UserData :=
  let s := u.streaks
  let current :=
    match s.lastDonation with
    | none => 1
    | some last =>
      if now - last ≤ oneDayMs then s.current + 1
      else if now - last ≤ 2 * oneDayMs then s.current
      else 1
  { u with streaks := ⟨current, max s.longest current, some now⟩ }

/-- Truthiness of `!role.maxAmount || total <= role.maxAmount` in the two
donor-role assigners: an unset or zero `maxAmount` never caps a tier. -/
def tierMatches (total : ℚ) (role : DonorRole) : Bool :=
  total ≥ role.minAmount &&
    match role.maxAmount with
    | none => true
    | some m => m = 0 || total ≤ m

/-- The `currentRole` scan of the first `assignDonorRoles` (help.js lines
2348-2358): among configured tier roles the member holds, keep the one
with the strictly largest `minAmount` (starting from the sentinel `0`, so
tiers with a non-positive `minAmount` are never selected). -/
def currentRoleScan (donorRoles : List DonorRole) (memberRoles : List String) :
    Option DonorRole × ℚ :=
  donorRoles.foldl
    (fun acc role =>
      if memberRoles.contains role.id ∧ role.minAmount > acc.2
      then (some role, role.minAmount) else acc)
    (none, 0)

/-- The `newRole` scan of the first `assignDonorRoles` (help.js lines
2361-2370): among tiers whose range contains `newTotal`, keep the one
with the strictly largest `minAmount` (same `0` sentinel). -/
def newRoleScan (donorRoles : List DonorRole) (newTotal : ℚ) :
    Option DonorRole × ℚ :=
  donorRoles.foldl
    (fun acc role =>
      if tierMatches newTotal role ∧ role.minAmount > acc.2
      then (some role, role.minAmount) else acc)
    (none, 0)

/-- Embeds the first `assignDonorRoles` (help.js lines 2334-2401) as a
function on the member's role-id list: when a tier is computed for the
new total and it is strictly higher than the held tier (or no tier is
held), all configured tier roles are removed and the new tier role is
added; otherwise the roles are untouched.  The `donorRoles` table comes
from `db.config.donorRoles`; an empty table short-circuits. -/
def assignDonorRolesA (donorRoles : List DonorRole)
    (memberRoles : List String) (newTotal : ℚ) : List String :=
  if donorRoles.isEmpty then memberRoles
  else
    let cur := currentRoleScan donorRoles memberRoles
    let new := newRoleScan donorRoles newTotal
    match new.1 with
    | none => memberRoles
    | some n =>
      if cur.1 = none ∨ new.2 > cur.2 then
        memberRoles.filter (fun r => ¬ donorRoles.any (fun role => role.id = r))
          ++ [n.id]
      else memberRoles

/-- The tier scan of the second `assignDonorRoles` (help.js lines
2851-2860): the *last* tier whose range contains the total wins; the
result is the index into the table, because the source compares the two
selections with object identity (`newRole !== oldRole`). -/
def lastTierScan (donorRoles : List DonorRole) (total : ℚ) : Option ℕ :=
  (List.range donorRoles.length).foldl
    (fun acc i =>
      match donorRoles[i]? with
      | some role => if tierMatches total role then some i else acc
      | none => acc)
    none

/-- Embeds the second `assignDonorRoles` (help.js lines 2846-2886): the
tiers computed from `newTotal` and `oldTotal` are compared, and whenever
they differ (and a new tier exists) every configured tier role is removed
and the new tier role added — there is no check against the roles the
member actually holds.  The `donorRoles` table is the static
`CONFIG.DONOR_ROLES` (its concrete contents live in a file outside this
repository slice), passed here as a parameter. -/
def assignDonorRolesB (donorRoles : List DonorRole)
    (memberRoles : List String) (newTotal oldTotal : ℚ) : List String :=
  let newIdx := lastTierScan donorRoles newTotal
  let oldIdx := lastTierScan donorRoles oldTotal
  match newIdx with
  | none => memberRoles
  | some i =>
    if newIdx = oldIdx then memberRoles
    else
      match donorRoles[i]? with
      | none => memberRoles
      | some n =>
        memberRoles.filter (fun r => ¬ donorRoles.any (fun role => role.id = r))
          ++ [n.id]

/-- Number of users whose `referredBy` is this user, the quantity read by
the `community_pillar` case. -/
def refCount (users : List (UserId × UserData)) (uid : UserId) : ℕ :=
  (users.filter (fun p => p.2.referredBy = some uid)).length

/-- The `switch (key)` shared by `checkAndAssignAchievements` (help.js
lines 2416-2443) and `fixUserAchievements` (lines 1685-1712): whether one
achievement predicate currently holds.  Keys outside the switch are never
earned (the switch has no default). -/
def achievementEarned (key : String) (uid : UserId) (u : UserData)
    (users : List (UserId × UserData)) : Bool :=
  if key = "first_steps" then u.totalDonated > 0
  else if key = "generous_donor" then u.totalDonated ≥ 100
  else if key = "big_spender" then u.totalDonated ≥ 500
  else if key = "whale" then u.totalDonated ≥ 1000
  else if key = "streak_master" then u.streaks.current ≥ 7
  else if key = "community_pillar" then refCount users uid ≥ 3
  else if key = "lucky_winner" then u.wins > 0
  else false

/-- The achievement-granting loop shared by `checkAndAssignAchievements`
and `fixUserAchievements`: walk the `ACHIEVEMENTS` catalog keys in order,
skip keys already in the user's achievement list, append each newly
earned key and count it.  The catalog object itself lives in the missing
`config.js`, so its key list is a parameter.  The referral count reads
the surrounding user table, which these loops never modify.  `achStep` is
one iteration of that loop. -/
def achStep (uid : UserId) (users : List (UserId × UserData))
    (acc : UserData × ℕ) (key : String) : UserData × ℕ :=
  if acc.1.achievements.contains key then acc
  else if achievementEarned key uid acc.1 users then
    ({ acc.1 with achievements := acc.1.achievements ++ [key] }, acc.2 + 1)
  else acc

/-- The full catalog walk, starting from the user's current record. -/
def grantAchievements (catalog : List String) (uid : UserId)
    (users : List (UserId × UserData)) (u : UserData) : UserData × ℕ :=
  catalog.foldl (achStep uid users) (u, 0)

/-- Embeds `fixUserAchievements` (help.js lines 1674-1721) on the user
table: re-evaluate one user's achievements in place and report the number
granted. -/
def fixUserAchievements (catalog : List String)
    (users : List (UserId × UserData)) (uid : UserId) :
    List (UserId × UserData) × ℕ :=
  match getEntry users uid with
  | none => (users, 0)
  | some u =>
    let (u', c) := grantAchievements catalog uid users u
    (putEntry users uid u', c)

/-- One iteration of the all-users repair loop of
`handleFixAchievements` (help.js lines 1645-1653): users with a positive
donation total are re-evaluated, others skipped. -/
def fixStep (catalog : List String)
    (acc : List (UserId × UserData) × ℕ) (uid : UserId) :
    List (UserId × UserData) × ℕ :=
  match getEntry acc.1 uid with
  | none => acc
  | some u =>
    if u.totalDonated > 0 then
      ((fixUserAchievements catalog acc.1 uid).1,
       acc.2 + (fixUserAchievements catalog acc.1 uid).2)
    else acc

/-- The all-users repair loop of `handleFixAchievements` (help.js lines
1645-1653): fix every user with a positive donation total, accumulating
the number of achievements granted. -/
def fixAllUsers (catalog : List String) (users : List (UserId × UserData)) :
    List (UserId × UserData) × ℕ :=
  (users.map Prod.fst).foldl (fixStep catalog) (users, 0)

/-- Outcome reported by `handleSelectWinner`. -/
inductive SelectWinnerResult where
  | drawNotFound
  | drawNotActive
  | noEntries
  /-- Modelling artefact: the random index fell outside the weighted
  array.  Unreachable from the source, where
  `Math.floor(Math.random() * length) < length`. -/
  | invalidIndex
  | winner (id : UserId)
deriving DecidableEq

/-- The weighted population of `handleSelectWinner` (help.js lines
1022-1027): each user id repeated as many times as its entry count.  An
infinite count would make the source loop forever; here it contributes
`⊤.toNat = 0` copies, and the theorems about winner selection assume all
counts are finite. -/
def weightedEntries (ledger : List (UserId × ℕ∞)) : List UserId :=
  ledger.flatMap (fun p => List.replicate p.2.toNat p.1)

/-- Embeds `handleSelectWinner` (help.js lines 1002-1074).  `randomIndex`
stands for `Math.floor(Math.random() * weightedEntries.length)`.  On
success the draw is deactivated, its winner recorded, and the winner's
`wins` counter incremented (creating the user record if needed). -/
def handleSelectWinner (db : Db) (drawId : DrawId) (randomIndex : ℕ) :
    SelectWinnerResult × Db :=
  match getEntry db.donationDraws drawId with
  | none => (.drawNotFound, db)
  | some draw =>
    if ¬ draw.active then (.drawNotActive, db)
    else if entriesTotal draw.entries = 0 then (.noEntries, db)
    else
      match (weightedEntries draw.entries)[randomIndex]? with
      | none => (.invalidIndex, db)
      | some winnerId =>
        let draw' := { draw with active := false, winner := some winnerId }
        let u := (getEntry db.users winnerId).getD freshUser
        let u' := { u with wins := u.wins + 1 }
        (.winner winnerId,
         { db with donationDraws := putEntry db.donationDraws drawId draw',
                   users := putEntry db.users winnerId u' })

/-- The per-user body of the assignment loop of `handleAssignEntries`
(help.js lines 1138-1157): bump the draw ledger and the (possibly fresh)
user's per-draw entry map by the assigned count. -/
def assignStep (drawId : DrawId) (c : ℕ∞)
    (st : List (UserId × ℕ∞) × List (UserId × UserData)) (uid : UserId) :
    List (UserId × ℕ∞) × List (UserId × UserData) :=
  let u := (getEntry st.2 uid).getD freshUser
  let u' := { u with entries := bumpEntry u.entries drawId c }
  (bumpEntry st.1 uid c, putEntry st.2 uid u')

/-- Embeds `handleAssignEntries` (help.js lines 1077-1161) — the admin
command granting `entries` manual entries to each target user.  `none`
models every rejecting reply (missing draw, inactive draw, non-positive
count, no targets, or insufficient capacity).  The capacity guard
`currentEntries + totalNewEntries > draw.maxEntries` is false in JS when
`maxEntries` is absent, so an unset capacity never rejects. -/
def handleAssignEntries (db : Db) (drawId : DrawId)
    (targetUsers : List UserId) (entries : ℤ) : Option Db :=
  match getEntry db.donationDraws drawId with
  | none => none
  | some draw =>
    if ¬ draw.active then none
    else if entries ≤ 0 then none
    else if targetUsers.isEmpty then none
    else
      let currentEntries := entriesTotal draw.entries
      let totalNewEntries : ℕ := targetUsers.length * entries.toNat
      let capacityExceeded :=
        match draw.maxEntries with
        | none => false
        | some m => (m : ℕ∞) < currentEntries + (totalNewEntries : ℕ∞)
      if capacityExceeded then none
      else
        let st := targetUsers.foldl (assignStep drawId (entries.toNat : ℕ∞))
          (draw.entries, db.users)
        some { db with
                donationDraws := putEntry db.donationDraws drawId
                  { draw with entries := st.1 },
                users := st.2 }

/-- The fields of a tip message recognised by one of the regex grammars:
sender and recipient as captured, and `Number.parseFloat` of the captured
amount.  The grammar stage itself (help.js lines 1894-1950) only selects
these captures and has no effect on state; the claims below concern the
pipeline from the captures onward, so the capture result is an input. -/
structure ParsedTip where
  sender : String
  recipient : String
  amount : ℚ
  currency : String
deriving DecidableEq

/-- Embeds the first `handleTipccDonation` (help.js lines 1884-2152) as a
state transition.  External effects are inputs: `parsed` is the outcome
of the regex grammars on `content`, `providerResults` the outcomes of the
three price-provider calls, `resolvedSender` the guild-member resolution
(user id and current role ids, `none` when no member matches), `now` the
clock, `defaultAccepted` the static
`CONFIG.DEFAULT_ACCEPTED_CRYPTOCURRENCIES` list and `catalog` the static
`ACHIEVEMENTS` key list (both from the missing `config.js`).  The result
is the database after the handler plus the member's role list after donor
tier assignment (`none` on every early return, which performs no role
mutation).  The VIP gate in the allocation loop reads the member object
resolved before role assignment, whose cache the awaited role edits do
not update in-place. -/
def handleTipccDonationA (defaultAccepted catalog : List String) (db : Db)
    (content : String) (parsed : Option ParsedTip)
    (providerResults : List (Option ℚ))
    (resolvedSender : Option (UserId × List String)) (now : ℕ) :
    Db × Option (List String) :=
  match parsed with
  | none => (db, none)
  | some tip =>
    if db.config.allowedRecipients.isEmpty then (db, none)
    else if ¬ isAllowedRecipientExact db.config.allowedRecipients tip.recipient then
      (db, none)
    else
      let accepted :=
        match db.config.acceptedCryptocurrencies with
        | some l => l
        | none => defaultAccepted
      if ¬ accepted.contains (upperStr tip.currency) then (db, none)
      else
        match resolveUsdValue content tip.amount providerResults with
        | none => (db, none)
        | some usdValue =>
          if usdValue = 0 then (db, none)
          else
            match resolvedSender with
            | none => (db, none)
            | some (senderId, memberRoles) =>
              let u0 := (getEntry db.users senderId).getD freshUser
              let u1 := { u0 with
                totalDonated := u0.totalDonated + usdValue,
                donations := u0.donations ++
                  [⟨usdValue, tip.currency, tip.amount, now, tip.recipient⟩] }
              let u2 := updateDonationStreak now u1
              let roles1 :=
                assignDonorRolesA db.config.donorRoles memberRoles u2.totalDonated
              let usersMid := putEntry db.users senderId u2
              let u3 := (grantAchievements catalog senderId usersMid u2).1
              let (draws', userEntries', _entriesAdded) :=
                processDraws db.config memberRoles u3.selectedDraw senderId
                  usdValue db.donationDraws u3.entries
              let u4 := { u3 with entries := userEntries' }
              ({ db with users := putEntry usersMid senderId u4,
                         donationDraws := draws' },
               some roles1)

/-- Modelled from the claim wording of C1: eligibility exactly as the
claim states it — active, `minAmount ≤ v`, `maxAmount` unset or `v`
within it, not manual-only, `selectedDraw` unset / `"auto"` / this draw,
and (when a VIP role is configured) the VIP role held for VIP-only
draws. -/
def claimEligible (cfg : Config) (memberRoles : List String)
    (sel : Option String) (v : ℚ) (drawId : DrawId) (d : Draw) : Bool :=
  d.active && decide (d.minAmount ≤ v) &&
  (match d.maxAmount with | none => true | some M => decide (v ≤ M)) &&
  !d.manualEntriesOnly &&
  (match sel with | none => true | some s => s == "auto" || s == drawId) &&
  (!d.vipOnly || match cfg.vipRoleId with | none => true | some r => memberRoles.contains r)

/-- Eligibility as the code enforces it: like `claimEligible` except that
a zero `maxAmount` is JS-falsy and therefore never caps the donation. -/
def amendedEligible (cfg : Config) (memberRoles : List String)
    (sel : Option String) (v : ℚ) (drawId : DrawId) (d : Draw) : Bool :=
  d.active && decide (d.minAmount ≤ v) &&
  (match d.maxAmount with | none => true | some M => decide (M = 0) || decide (v ≤ M)) &&
  !d.manualEntriesOnly &&
  (match sel with | none => true | some s => s == "auto" || s == drawId) &&
  (!d.vipOnly || match cfg.vipRoleId with | none => true | some r => memberRoles.contains r)

/-- Remaining capacity of a draw as the allocation clamp sees it: a draw
with no (or a JS-falsy zero) `maxEntries` is unbounded. -/
def remainingCapacity (d : Draw) : ℕ∞ :=
  match d.maxEntries with
  | none => ⊤
  | some m => if m = 0 then ⊤ else (m : ℕ∞) - entriesTotal d.entries

/-- Modelled from the spec wording for C5: the first provider result that
is a positive price. -/
def firstPositivePrice : List (Option ℚ) → Option ℚ
  | [] => none
  | some p :: rest => if 0 < p then some p else firstPositivePrice rest
  | none :: rest => firstPositivePrice rest

/-- A minimal configuration used by the concrete evaluations below. -/
def cfgPlain : Config :=
  { allowedRecipients := [.str "pool"]
    acceptedCryptocurrencies := none
    vipRoleId := none
    donorRoles := []
    globalBlacklist := ⟨[], []⟩ }

/-- Active draw with `minAmount = 5` and `maxAmount = 0` (the JS-falsy
cap), used against claim C1. -/
def drawMaxZero : Draw :=
  { name := "cap0", minAmount := 5, maxAmount := some 0, maxEntries := none
    vipOnly := false, manualEntriesOnly := false, active := true
    entries := [], winner := none }

/-- Active draw with `minAmount = 0` and no capacity, the C3 failing
input. -/
def drawMinZeroUnbounded : Draw :=
  { name := "min0", minAmount := 0, maxAmount := none, maxEntries := none
    vipOnly := false, manualEntriesOnly := false, active := true
    entries := [], winner := none }

/-- Active draw with `minAmount = 0` and `maxEntries = 5`. -/
def drawMinZeroCapped : Draw :=
  { drawMinZeroUnbounded with maxEntries := some 5 }

/-- Active draw with `minAmount = 5` and `maxEntries = 0` (the JS-falsy
capacity), used against claim C2. -/
def drawCapZero : Draw :=
  { name := "capzero", minAmount := 5, maxAmount := none, maxEntries := some 0
    vipOnly := false, manualEntriesOnly := false, active := true
    entries := [], winner := none }

theorem startsSeg_self (l : List Char) : startsSeg l l = true := by
  induction l with
  | nil => rfl
  | cons c t ih => simp [startsSeg, ih]

theorem containsSeg_self (l : List Char) : containsSeg l l = true := by
  cases l with
  | nil => rfl
  | cons c t => simp [containsSeg, startsSeg_self]

theorem jsIncludes_refl (s : String) : jsIncludes s s = true :=
  containsSeg_self s.data

/-- C4 (amended): the permissive matcher of the second message handler is
exactly «clean both sides, lower-case them, then accept on equality or on
substring containment in either direction», and in particular allowed
entry `"bob"` matches incoming recipient `"bobby"`. -/
theorem recipient_loose_containment_iff :
    (∀ (l : List ConfigEntry) (r : String),
      isAllowedRecipientLoose l r = true ↔
        ∃ a : String, ConfigEntry.str a ∈ l ∧
          (lowerStr (cleanName a) = lowerStr (cleanName r) ∨
           jsIncludes (lowerStr (cleanName r)) (lowerStr (cleanName a)) = true ∨
           jsIncludes (lowerStr (cleanName a)) (lowerStr (cleanName r)) = true)) ∧
    isAllowedRecipientLoose [.str "bob"] "bobby" = true := by
  constructor
  · intro l r
    unfold isAllowedRecipientLoose
    rw [List.any_eq_true]
    constructor
    · rintro ⟨e, he, hm⟩
      cases e with
      | nonString => simp at hm
      | str a =>
        simp only [Bool.or_eq_true] at hm
        exact ⟨a, he, Or.inr hm⟩
    · rintro ⟨a, ha, h⟩
      refine ⟨.str a, ha, ?_⟩
      simp only [Bool.or_eq_true]
      rcases h with h | h | h
      · exact Or.inl (h ▸ jsIncludes_refl _)
      · exact Or.inl h
      · exact Or.inr h
  · decide

/-- C4 counterexample: the matcher of the first message handler compares
cleaned strings with `===` only, so allowed entry `"bob"` does *not*
match incoming recipient `"bobby"` there, contradicting the claim's
bidirectional-containment rule for every matcher. -/
theorem recipient_exact_rejects_containment :
    isAllowedRecipientExact [.str "bob"] "bobby" = false ∧
    isAllowedRecipientExact [.str "Bob"] "bob" = false ∧
    isAllowedRecipientLoose [.str "bob"] "bobby" = true := by
  refine ⟨by decide, by decide, by decide⟩

theorem getCryptoPrice_eq_firstPositive (rs : List (Option ℚ)) (amt : ℚ) :
    getCryptoPrice rs amt = (firstPositivePrice rs).map (· * amt) := by
  induction rs with
  | nil => rfl
  | cons r rest ih =>
    cases r with
    | none => simpa [getCryptoPrice, firstPositivePrice] using ih
    | some p =>
      by_cases hp : 0 < p <;>
        simp [getCryptoPrice, firstPositivePrice, hp, ih]

/-- C5 (amended): a nonzero embedded `$amount` is returned immediately and
is independent of the providers and the quantity; when the message has no
embedded price — or an embedded price of `0`, which is JS-falsy — the
resolver falls back to the first provider with a positive price,
multiplied by the quantity. -/
theorem resolve_embedded_price_priority :
    (∀ (content : String) (amt : ℚ) (providers : List (Option ℚ)) (p : ℚ),
      extractPriceFromTipMessage content = some p → p ≠ 0 →
        resolveUsdValue content amt providers = some p) ∧
    (∀ (content : String) (amt : ℚ) (providers : List (Option ℚ)),
      extractPriceFromTipMessage content = none →
        resolveUsdValue content amt providers =
          (firstPositivePrice providers).map (· * amt)) ∧
    (∀ (content : String) (amt : ℚ) (providers : List (Option ℚ)),
      extractPriceFromTipMessage content = some 0 →
        resolveUsdValue content amt providers =
          (firstPositivePrice providers).map (· * amt)) := by
  refine ⟨?_, ?_, ?_⟩
  · intro content amt providers p hx hp
    simp [resolveUsdValue, hx, hp]
  · intro content amt providers hx
    simp [resolveUsdValue, hx, getCryptoPrice_eq_firstPositive]
  · intro content amt providers hx
    simp [resolveUsdValue, hx, getCryptoPrice_eq_firstPositive]

/-- Witness for `resolve_embedded_price_priority` at a concrete input:
message `"tip $7"` embeds the price 7, which wins over a provider
offering 3. -/
theorem resolve_embedded_price_priority_witness :
    extractPriceFromTipMessage "tip $7" = some 7 ∧
    resolveUsdValue "tip $7" 2 [some 3] = some 7 := by
  have hx : extractPriceFromTipMessage "tip $7" = some 7 := by decide
  exact ⟨hx, resolve_embedded_price_priority.1 "tip $7" 2 [some 3] 7 hx (by norm_num)⟩

/-- C5 counterexample: a message embedding `"$0"` *does* contain a
`$amount` pattern, yet the resolver does not return it — the zero is
JS-falsy, so the external providers are consulted and their price wins,
contradicting the claim's «returns that embedded USD amount immediately
… without consulting any external price provider». -/
theorem resolve_zero_embedded_consults_providers :
    extractPriceFromTipMessage "sent $0 of LTC" = some 0 ∧
    resolveUsdValue "sent $0 of LTC" 1 [some 5] = some 5 ∧
    (5 : ℚ) ≠ 0 := by
  have hx : extractPriceFromTipMessage "sent $0 of LTC" = some 0 := by decide
  refine ⟨hx, ?_, by norm_num⟩
  rw [resolveUsdValue, hx]
  norm_num [getCryptoPrice]

/-- C3: the code does not exclude draws with `minAmount = 0`.  For a $10
donation, `Math.floor(10 / 0) = Infinity` grants an infinite entry count
to an uncapped zero-minimum draw, and the full remaining capacity (5) to
a capped one — the spec instead requires such draws to be skipped with no
entries. -/
theorem zero_min_draw_grants_entries :
    drawGrant cfgPlain [] none "u1" 10 "d1" drawMinZeroUnbounded = ⊤ ∧
    drawGrant cfgPlain [] none "u1" 10 "d1" drawMinZeroCapped = 5 ∧
    (⊤ : ℕ∞) ≠ 0 := by
  refine ⟨by decide, by decide, by decide⟩

/-- Replace the `config.globalBlacklist` document of a database. -/
def setBlacklist (db : Db) (bl : Blacklist) : Db :=
  { db with config := { db.config with globalBlacklist := bl } }

theorem processDrawEntry_blacklist (cfg : Config) (bl : Blacklist)
    (memberRoles : List String) (sel : Option String) (senderId : UserId)
    (v : ℚ) (drawId : DrawId) (d : Draw) :
    processDrawEntry { cfg with globalBlacklist := bl } memberRoles sel senderId v drawId d =
      processDrawEntry cfg memberRoles sel senderId v drawId d := rfl

theorem processDraws_blacklist (cfg : Config) (bl : Blacklist)
    (memberRoles : List String) (sel : Option String) (senderId : UserId)
    (v : ℚ) (draws : List (DrawId × Draw)) (ue : List (DrawId × ℕ∞)) :
    processDraws { cfg with globalBlacklist := bl } memberRoles sel senderId v draws ue =
      processDraws cfg memberRoles sel senderId v draws ue := by
  induction draws generalizing ue with
  | nil => rfl
  | cons p rest ih =>
    obtain ⟨drawId, draw⟩ := p
    simp only [processDraws, processDrawEntry_blacklist, ih]

/-- C10: the donation pipeline never reads `config.globalBlacklist` —
running the handler on a database whose blacklist has been replaced by an
arbitrary one produces exactly the original run's state updates, with
that blacklist carried through untouched.  In particular a blacklisted
sender still receives the same entries, donation records, role updates
and achievements as a non-blacklisted one. -/
theorem blacklist_noninterference (defaultAccepted catalog : List String)
    (db : Db) (bl : Blacklist) (content : String) (parsed : Option ParsedTip)
    (providers : List (Option ℚ)) (resolved : Option (UserId × List String))
    (now : ℕ) :
    handleTipccDonationA defaultAccepted catalog (setBlacklist db bl)
        content parsed providers resolved now =
      (setBlacklist (handleTipccDonationA defaultAccepted catalog db
          content parsed providers resolved now).1 bl,
       (handleTipccDonationA defaultAccepted catalog db
          content parsed providers resolved now).2) := by
  cases parsed with
  | none => rfl
  | some tip =>
    simp only [handleTipccDonationA, setBlacklist, processDraws_blacklist]
    rcases resolveUsdValue content tip.amount providers with _ | usd <;>
      rcases resolved with _ | ⟨sid, mroles⟩ <;>
        split_ifs <;> (try dsimp only) <;>
          (first | rfl | (split_ifs <;> rfl))

/-- C6: when price resolution fails on every source — no embedded
`$amount` in the message and no provider returning a positive price — the
handler returns with the database untouched and no member-role mutation:
no donation record, streak, achievement, per-draw entry or ledger
change. -/
theorem price_failure_aborts (defaultAccepted catalog : List String)
    (db : Db) (content : String) (parsed : Option ParsedTip)
    (providers : List (Option ℚ)) (resolved : Option (UserId × List String))
    (now : ℕ)
    (hembed : extractPriceFromTipMessage content = none)
    (hprov : firstPositivePrice providers = none) :
    handleTipccDonationA defaultAccepted catalog db content parsed providers
      resolved now = (db, none) := by
  cases parsed with
  | none => rfl
  | some tip =>
    have hres : resolveUsdValue content tip.amount providers = none := by
      simp [resolveUsdValue, hembed, getCryptoPrice_eq_firstPositive, hprov]
    simp only [handleTipccDonationA, hres]
    split_ifs <;> rfl

/-- Witness for `price_failure_aborts`: a fully concrete event (message
without a price, providers failing or returning `0`) leaves a concrete
populated database exactly unchanged. -/
theorem price_failure_aborts_witness :
    extractPriceFromTipMessage "tip detected" = none ∧
    firstPositivePrice [none, some 0] = none ∧
    handleTipccDonationA [] [] ⟨[], [], cfgPlain⟩ "tip detected"
        (some ⟨"alice", "pool", 2, "LTC"⟩) [none, some 0]
        (some ("u1", [])) 1000 = (⟨[], [], cfgPlain⟩, none) :=
  ⟨by decide, by decide,
   price_failure_aborts [] [] ⟨[], [], cfgPlain⟩ "tip detected"
     (some ⟨"alice", "pool", 2, "LTC"⟩) [none, some 0] (some ("u1", [])) 1000
     (by decide) (by decide)⟩

/-- The two-tier table used in the donor-role scenarios: an uncapped tier
from $1 and a "high" tier for the band $50–$60. -/
def rolesLowHigh : List DonorRole :=
  [⟨"low", "Low Donor", 1, none⟩, ⟨"high", "High Donor", 50, some 60⟩]

/-- C7 (amended, first `assignDonorRoles`): the tier assigner that
inspects the roles the member actually holds never downgrades — when a
tier role is held and the tier computed from the new total does not have
a strictly greater `minAmount`, the member's roles are untouched, and
whenever the roles do change, either no configured tier role was held or
the new tier's `minAmount` strictly exceeds the held tier's. -/
theorem donor_role_no_downgrade :
    (∀ (donorRoles : List DonorRole) (memberRoles : List String)
       (newTotal : ℚ) (c : DonorRole) (cv : ℚ),
      currentRoleScan donorRoles memberRoles = (some c, cv) →
      ((newRoleScan donorRoles newTotal).1 = none ∨
        (newRoleScan donorRoles newTotal).2 ≤ cv) →
      assignDonorRolesA donorRoles memberRoles newTotal = memberRoles) ∧
    (∀ (donorRoles : List DonorRole) (memberRoles : List String)
       (newTotal : ℚ),
      assignDonorRolesA donorRoles memberRoles newTotal ≠ memberRoles →
      (newRoleScan donorRoles newTotal).1 ≠ none ∧
        ((currentRoleScan donorRoles memberRoles).1 = none ∨
         (currentRoleScan donorRoles memberRoles).2 <
           (newRoleScan donorRoles newTotal).2)) := by
  constructor
  · intro donorRoles memberRoles newTotal c cv hcur hnew
    unfold assignDonorRolesA
    rcases hn : newRoleScan donorRoles newTotal with ⟨nr, nv⟩
    rw [hn] at hnew
    simp only at hnew
    by_cases he : donorRoles.isEmpty
    · simp [he]
    simp only [he, if_false, hcur, hn]
    cases nr with
    | none => rfl
    | some n =>
      rcases hnew with hnew | hnew
      · exact absurd hnew (by simp)
      · have hng : ¬ ((some c = none ∨ nv > cv)) := by
          rintro (h | h)
          · exact Option.noConfusion h
          · exact absurd h (not_lt.mpr hnew)
        simp only [hn]
        simp [hng]
        intro h
        exact absurd h (not_lt.mpr hnew)
  · intro donorRoles memberRoles newTotal hchanged
    unfold assignDonorRolesA at hchanged
    by_cases he : donorRoles.isEmpty
    · simp [he] at hchanged
    rcases hc : currentRoleScan donorRoles memberRoles with ⟨cr, cv⟩
    rcases hn : newRoleScan donorRoles newTotal with ⟨nr, nv⟩
    rw [hc, hn] at hchanged
    simp only [he, if_false] at hchanged
    simp only
    cases nr with
    | none => exact absurd rfl hchanged
    | some n =>
      refine ⟨by simp, ?_⟩
      by_cases hguard : cr = none ∨ nv > cv
      · simpa using hguard
      · simp [hguard] at hchanged

/-- Witness for `donor_role_no_downgrade`: a member holding the "high"
tier (min $50) whose new total $70 only fits the "low" tier (min $1)
keeps the high tier untouched under the first assigner. -/
theorem donor_role_no_downgrade_witness :
    currentRoleScan rolesLowHigh ["high"] = (some ⟨"high", "High Donor", 50, some 60⟩, 50) ∧
    assignDonorRolesA rolesLowHigh ["high"] 70 = ["high"] :=
  ⟨by decide,
   donor_role_no_downgrade.1 rolesLowHigh ["high"] 70
     ⟨"high", "High Donor", 50, some 60⟩ 50 (by decide) (Or.inr (by decide))⟩

/-- C7 counterexample: the second `assignDonorRoles` compares only the
tiers computed from the old and new totals.  A member holding the "high"
tier (min $50, recorded total $55) who donates up to $70 — outside the
high band — is stripped of "high" and handed "low" (min $1), although the
computed tier's `minAmount` is not strictly greater than the held one:
the held tier role is downgraded. -/
theorem donor_role_downgrade_second_variant :
    assignDonorRolesB rolesLowHigh ["high"] 70 55 = ["low"] ∧
    (["low"] : List String) ≠ ["high"] :=
  ⟨by decide, by decide⟩

theorem getEntry_putEntry_self (l : List (String × α)) (k : String) (v : α) :
    getEntry (putEntry l k v) k = some v := by
  induction l with
  | nil => simp [putEntry, getEntry]
  | cons p t ih =>
    obtain ⟨k', v'⟩ := p
    by_cases h : k' = k <;> simp [putEntry, getEntry, h, ih]

theorem getEntry_putEntry_ne (l : List (String × α)) (k k' : String) (v : α)
    (h : k' ≠ k) : getEntry (putEntry l k v) k' = getEntry l k' := by
  have hk : k ≠ k' := Ne.symm h
  induction l with
  | nil => simp [putEntry, getEntry, hk]
  | cons p t ih =>
    obtain ⟨k₀, v₀⟩ := p
    by_cases h0 : k₀ = k
    · subst h0
      simp [putEntry, getEntry, hk]
    · simp only [putEntry, if_neg h0, getEntry]
      by_cases h1 : k₀ = k' <;> simp [h1, ih]

theorem putEntry_getEntry_self (l : List (String × α)) (k : String) (v : α)
    (h : getEntry l k = some v) : putEntry l k v = l := by
  induction l with
  | nil => simp [getEntry] at h
  | cons p t ih =>
    obtain ⟨k₀, v₀⟩ := p
    by_cases h0 : k₀ = k
    · subst h0
      simp [getEntry] at h
      simp [putEntry, h]
    · simp only [getEntry, if_neg h0] at h
      simp [putEntry, h0, ih h]

theorem getEntry_mem (l : List (String × α)) (k : String) (v : α)
    (h : getEntry l k = some v) : (k, v) ∈ l := by
  induction l with
  | nil => simp [getEntry] at h
  | cons p t ih =>
    obtain ⟨k₀, v₀⟩ := p
    by_cases h0 : k₀ = k
    · subst h0
      simp [getEntry] at h
      simp [h]
    · simp only [getEntry, if_neg h0] at h
      exact List.mem_cons_of_mem _ (ih h)

theorem getEntry_of_mem_nodup (l : List (String × α)) (k : String) (v : α)
    (hnd : (l.map Prod.fst).Nodup) (hm : (k, v) ∈ l) : getEntry l k = some v := by
  induction l with
  | nil => simp at hm
  | cons p t ih =>
    obtain ⟨k₀, v₀⟩ := p
    simp only [List.map_cons, List.nodup_cons] at hnd
    rcases List.mem_cons.mp hm with h | h
    · rw [Prod.mk.injEq] at h
      obtain ⟨hk, hv⟩ := h
      subst hk
      simp [getEntry, hv]
    · have hk : k₀ ≠ k := by
        intro he
        subst he
        exact hnd.1 (List.mem_map.mpr ⟨(k₀, v), h, rfl⟩)
      simp [getEntry, hk, ih hnd.2 h]

theorem entriesTotal_bumpEntry (l : List (String × ℕ∞)) (k : String) (n : ℕ∞) :
    entriesTotal (bumpEntry l k n) = entriesTotal l + n := by
  induction l with
  | nil => simp [bumpEntry, entriesTotal]
  | cons p t ih =>
    obtain ⟨k₀, v₀⟩ := p
    by_cases h0 : k₀ = k
    · simp [bumpEntry, h0, entriesTotal, add_assoc, add_comm n]
    · simp [bumpEntry, h0, entriesTotal] at *
      rw [ih, add_assoc]

theorem weightedEntries_mem (ledger : List (UserId × ℕ∞)) (w : UserId)
    (h : w ∈ weightedEntries ledger) : ∃ p ∈ ledger, p.1 = w ∧ p.2 ≠ 0 := by
  unfold weightedEntries at h
  obtain ⟨p, hp, hw⟩ := List.mem_flatMap.mp h
  rw [List.mem_replicate] at hw
  refine ⟨p, hp, hw.2.symm, ?_⟩
  intro h0
  exact hw.1 (by simp [h0])

theorem weightedEntries_nil_of_total_zero (ledger : List (UserId × ℕ∞))
    (h : entriesTotal ledger = 0) : weightedEntries ledger = [] := by
  unfold entriesTotal at h
  rw [List.sum_eq_zero_iff] at h
  unfold weightedEntries
  rw [List.flatMap_eq_nil_iff]
  intro p hp
  have : p.2 = 0 := h p.2 (List.mem_map.mpr ⟨p, hp, rfl⟩)
  simp [this]

/-- C8 (amended, restricted to active draws as the source checks
`draw.active` before anything else): winner selection on an active draw
with zero total entries reports no-entries and leaves the database
untouched; on an active draw with a valid random index it reports a
winner holding at least one entry in that draw, deactivates the draw,
records the winner, increments exactly the winner's `wins` counter and
touches no other user. -/
theorem select_winner_behaviour :
    (∀ (db : Db) (drawId : DrawId) (k : ℕ) (draw : Draw),
      getEntry db.donationDraws drawId = some draw → draw.active = true →
      entriesTotal draw.entries = 0 →
      handleSelectWinner db drawId k = (.noEntries, db)) ∧
    (∀ (db : Db) (drawId : DrawId) (k : ℕ) (draw : Draw),
      getEntry db.donationDraws drawId = some draw → draw.active = true →
      (draw.entries.map Prod.fst).Nodup →
      k < (weightedEntries draw.entries).length →
      ∃ w c, (handleSelectWinner db drawId k).1 = .winner w ∧
        getEntry draw.entries w = some c ∧ 1 ≤ c ∧
        getEntry (handleSelectWinner db drawId k).2.donationDraws drawId =
          some { draw with active := false, winner := some w } ∧
        ((getEntry (handleSelectWinner db drawId k).2.users w).getD freshUser).wins =
          ((getEntry db.users w).getD freshUser).wins + 1 ∧
        ∀ uid, uid ≠ w →
          getEntry (handleSelectWinner db drawId k).2.users uid =
            getEntry db.users uid) := by
  constructor
  · intro db drawId k draw hdraw hact htot
    unfold handleSelectWinner
    rw [hdraw]
    simp [hact, htot]
  · intro db drawId k draw hdraw hact hnd hk
    have htot : ¬ entriesTotal draw.entries = 0 := by
      intro h0
      rw [weightedEntries_nil_of_total_zero draw.entries h0] at hk
      simp at hk
    have hw : (weightedEntries draw.entries)[k]? = some (weightedEntries draw.entries)[k] :=
      List.getElem?_eq_getElem hk
    have hwmem : (weightedEntries draw.entries)[k] ∈ weightedEntries draw.entries :=
      List.getElem_mem hk
    obtain ⟨p, hp, hpw, hpnz⟩ :=
      weightedEntries_mem draw.entries (weightedEntries draw.entries)[k] hwmem
    have hc : getEntry draw.entries (weightedEntries draw.entries)[k] = some p.2 := by
      have hmem : ((weightedEntries draw.entries)[k], p.2) ∈ draw.entries := by
        obtain ⟨a, b⟩ := p
        simp only at hpw
        subst hpw
        exact hp
      exact getEntry_of_mem_nodup draw.entries _ p.2 hnd hmem
    refine ⟨(weightedEntries draw.entries)[k], p.2, ?_⟩
    unfold handleSelectWinner
    rw [hdraw]
    simp only [hact, htot, hw]
    refine ⟨rfl, hc, ENat.one_le_iff_ne_zero.mpr hpnz, ?_, ?_, ?_⟩
    · simp [getEntry_putEntry_self]
    · simp [getEntry_putEntry_self]
    · intro uid huid
      simp [getEntry_putEntry_ne _ _ _ _ huid]

/-- Concrete active draw holding two entries for `alice`. -/
def drawAlice : Draw :=
  { name := "D", minAmount := 5, maxAmount := none, maxEntries := none
    vipOnly := false, manualEntriesOnly := false, active := true
    entries := [("alice", 2)], winner := none }

/-- Concrete active draw with an empty entry ledger. -/
def drawEmpty : Draw :=
  { drawAlice with name := "E", entries := [] }

/-- Database holding `drawAlice` under `"d"` and `drawEmpty` under `"e"`. -/
def dbTwoDraws : Db :=
  { users := [], donationDraws := [("d", drawAlice), ("e", drawEmpty)], config := cfgPlain }

/-- Witness for `select_winner_behaviour`: on the concrete database the
no-entries case fires on the empty draw and the success case yields a
winner with at least one entry in the populated draw. -/
theorem select_winner_behaviour_witness :
    handleSelectWinner dbTwoDraws "e" 0 = (.noEntries, dbTwoDraws) ∧
    ∃ w c, (handleSelectWinner dbTwoDraws "d" 0).1 = .winner w ∧
      getEntry drawAlice.entries w = some c ∧ 1 ≤ c := by
  constructor
  · exact select_winner_behaviour.1 dbTwoDraws "e" 0 drawEmpty
      (by decide) (by decide) (by decide)
  · obtain ⟨w, c, h1, h2, h3, _⟩ := select_winner_behaviour.2 dbTwoDraws "d" 0 drawAlice
      (by decide) (by decide) (by decide) (by decide)
    exact ⟨w, c, h1, h2, h3⟩

/-- Database whose only draw is inactive yet holds two entries. -/
def dbInactive : Db :=
  { users := []
    donationDraws := [("d", { drawAlice with active := false })]
    config := cfgPlain }

/-- C8 counterexample: on an inactive draw with a positive entry total the
handler replies "not active" and changes nothing — it does not deactivate
anything, record a winner or increment a wins counter, contradicting the
claim's unrestricted «for every draw with positive total entries». -/
theorem select_winner_ignores_inactive_draw :
    handleSelectWinner dbInactive "d" 0 = (.drawNotActive, dbInactive) ∧
    (0 : ℕ∞) < entriesTotal [("alice", (2 : ℕ∞))] := by
  refine ⟨by decide, by decide⟩

theorem foldl_assignStep_fst (drawId : DrawId) (c : ℕ∞) :
    ∀ (targets : List UserId) (st : List (UserId × ℕ∞) × List (UserId × UserData)),
      (targets.foldl (assignStep drawId c) st).1 =
        targets.foldl (fun l uid => bumpEntry l uid c) st.1 := by
  intro targets
  induction targets with
  | nil => intro st; rfl
  | cons uid rest ih => intro st; simpa [assignStep] using ih _

theorem entriesTotal_foldl_bump (c : ℕ∞) :
    ∀ (targets : List UserId) (l : List (UserId × ℕ∞)),
      entriesTotal (targets.foldl (fun l uid => bumpEntry l uid c) l) =
        entriesTotal l + targets.length * c := by
  intro targets
  induction targets with
  | nil => intro l; simp
  | cons uid rest ih =>
    intro l
    simp only [List.foldl_cons, ih, entriesTotal_bumpEntry, List.length_cons]
    push_cast
    ring

/-- C2 (amended): capacity is respected wherever the JS truthiness of
`maxEntries` lets the code see it.  For the automatic allocation path and
a draw whose `maxEntries` is set *and nonzero*: the post-allocation entry
total never exceeds `maxEntries`, and a draw at or above capacity is
skipped with no ledger mutation.  For the admin `handleAssignEntries`
path, any set `maxEntries` (zero included) is enforced: a successful
assignment leaves the total within capacity, and a draw at or above
capacity always rejects. -/
theorem capacity_invariant :
    (∀ (cfg : Config) (memberRoles : List String) (sel : Option String)
       (senderId : UserId) (v : ℚ) (drawId : DrawId) (d : Draw) (m : ℕ),
      d.maxEntries = some m → m ≠ 0 →
      entriesTotal d.entries ≤ (m : ℕ∞) →
      entriesTotal
        (match processDrawEntry cfg memberRoles sel senderId v drawId d with
          | none => d
          | some (d', _) => d').entries ≤ (m : ℕ∞)) ∧
    (∀ (cfg : Config) (memberRoles : List String) (sel : Option String)
       (senderId : UserId) (v : ℚ) (drawId : DrawId) (d : Draw) (m : ℕ),
      d.maxEntries = some m → m ≠ 0 →
      (m : ℕ∞) ≤ entriesTotal d.entries →
      processDrawEntry cfg memberRoles sel senderId v drawId d = none) ∧
    (∀ (db : Db) (drawId : DrawId) (targets : List UserId) (k : ℤ)
       (d : Draw) (m : ℕ) (db' : Db),
      getEntry db.donationDraws drawId = some d → d.maxEntries = some m →
      handleAssignEntries db drawId targets k = some db' →
      ∃ d', getEntry db'.donationDraws drawId = some d' ∧
        entriesTotal d'.entries ≤ (m : ℕ∞)) ∧
    (∀ (db : Db) (drawId : DrawId) (targets : List UserId) (k : ℤ)
       (d : Draw) (m : ℕ),
      getEntry db.donationDraws drawId = some d → d.maxEntries = some m →
      (m : ℕ∞) ≤ entriesTotal d.entries →
      handleAssignEntries db drawId targets k = none) := by
  have hskip : ∀ (cfg : Config) (memberRoles : List String) (sel : Option String)
      (senderId : UserId) (v : ℚ) (drawId : DrawId) (d : Draw) (m : ℕ),
      d.maxEntries = some m → m ≠ 0 → (m : ℕ∞) ≤ entriesTotal d.entries →
      processDrawEntry cfg memberRoles sel senderId v drawId d = none := by
    intro cfg memberRoles sel senderId v drawId d m hmax hm hcap
    unfold processDrawEntry
    simp only [hmax]
    split_ifs with h1 h2 h3 h4 h5 h6 h7
    any_goals rfl
    rw [decide_eq_true_eq] at h7
    exact absurd ⟨hm, hcap⟩ h7
  refine ⟨?_, hskip, ?_, ?_⟩
  · intro cfg memberRoles sel senderId v drawId d m hmax hm hcap
    rcases hres : processDrawEntry cfg memberRoles sel senderId v drawId d with _ | ⟨d', g⟩
    · simpa using hcap
    · simp only
      unfold processDrawEntry at hres
      simp only [hmax] at hres
      split_ifs at hres with h1 h2 h3 h4 h5 h6 h7
      rw [decide_eq_true_eq] at h7
      rw [Option.some.injEq, Prod.mk.injEq] at hres
      obtain ⟨hd', hg⟩ := hres
      subst hd'
      have hlt : entriesTotal d.entries < (m : ℕ∞) := by
        rcases not_and_or.mp h7 with h | h
        · exact absurd hm h
        · exact lt_of_not_le h
      simp only [Draw.entries] at *
      rw [entriesTotal_bumpEntry]
      calc entriesTotal d.entries +
          min (jsEntriesCalc v d.minAmount) ((m : ℕ∞) - entriesTotal d.entries)
        ≤ entriesTotal d.entries + ((m : ℕ∞) - entriesTotal d.entries) :=
          add_le_add_left (min_le_right _ _) _
      _ = (m : ℕ∞) := add_tsub_cancel_of_le hlt.le
  · intro db drawId targets k d m db' hdraw hmax hsucc
    unfold handleAssignEntries at hsucc
    rw [hdraw] at hsucc
    simp only [hmax] at hsucc
    split_ifs at hsucc with h1 h2 h3 h4
    rw [decide_eq_true_eq] at h4
    rw [Option.some.injEq] at hsucc
    subst hsucc
    refine ⟨{ d with entries :=
        (targets.foldl (assignStep drawId (k.toNat : ℕ∞)) (d.entries, db.users)).1 },
      by simp [getEntry_putEntry_self, hmax], ?_⟩
    simp only [foldl_assignStep_fst, entriesTotal_foldl_bump]
    have hle : entriesTotal d.entries +
        ((targets.length * k.toNat : ℕ) : ℕ∞) ≤ (m : ℕ∞) := le_of_not_lt h4
    calc entriesTotal d.entries + targets.length * ((k.toNat : ℕ) : ℕ∞)
        = entriesTotal d.entries + ((targets.length * k.toNat : ℕ) : ℕ∞) := by push_cast; ring
      _ ≤ (m : ℕ∞) := hle
  · intro db drawId targets k d m hdraw hmax hcap
    unfold handleAssignEntries
    rw [hdraw]
    simp only [hmax]
    split_ifs with h1 h2 h3 h4
    any_goals rfl
    exfalso
    apply h4
    rw [decide_eq_true_eq]
    have hk : 1 ≤ k.toNat := by omega
    have hlen : 1 ≤ targets.length := by
      cases targets with
      | nil => simp at h3
      | cons a t => simp
    have hone : (1 : ℕ∞) ≤ ((targets.length * k.toNat : ℕ) : ℕ∞) := by
      have h1n : (1 : ℕ) ≤ targets.length * k.toNat :=
        Nat.one_le_iff_ne_zero.mpr (Nat.mul_ne_zero (by omega) (by omega))
      exact_mod_cast h1n
    calc (m : ℕ∞) < (m : ℕ∞) + 1 :=
          (ENat.lt_add_one_iff (ENat.coe_ne_top m)).mpr le_rfl
      _ ≤ entriesTotal d.entries + ((targets.length * k.toNat : ℕ) : ℕ∞) :=
          add_le_add hcap hone

/-- Draw with capacity 5 already holding 5 entries. -/
def drawCapFull : Draw := { drawCapZero with maxEntries := some 5, entries := [("bob", 5)] }

/-- Draw with capacity 5 holding 3 entries. -/
def drawCapRoom : Draw := { drawCapZero with maxEntries := some 5, entries := [("bob", 3)] }

/-- Database holding `drawCapFull` under `"d"`. -/
def dbCapFull : Db := { users := [], donationDraws := [("d", drawCapFull)], config := cfgPlain }

/-- Witness for `capacity_invariant` at concrete inputs: a full draw is
skipped by the automatic path and rejected by the admin path, and a draw
with room stays within capacity after automatic allocation. -/
theorem capacity_invariant_witness :
    processDrawEntry cfgPlain [] none "u1" 10 "d" drawCapFull = none ∧
    handleAssignEntries dbCapFull "d" ["u1"] 3 = none ∧
    entriesTotal
      (match processDrawEntry cfgPlain [] none "u1" 10 "d" drawCapRoom with
        | none => drawCapRoom
        | some (d', _) => d').entries ≤ ((5 : ℕ) : ℕ∞) :=
  ⟨capacity_invariant.2.1 cfgPlain [] none "u1" 10 "d" drawCapFull 5
     (by decide) (by decide) (by decide),
   capacity_invariant.2.2.2 dbCapFull "d" ["u1"] 3 drawCapFull 5
     (by decide) (by decide) (by decide),
   capacity_invariant.1 cfgPlain [] none "u1" 10 "d" drawCapRoom 5
     (by decide) (by decide) (by decide)⟩

/-- C2 counterexample: a draw whose `maxEntries` is *set to `0`* is
JS-falsy in the automatic allocation path, so the capacity check is
skipped entirely: starting within capacity (total 0 ≤ 0), a $10 donation
into a $5-minimum draw adds 2 entries and the ledger total 2 exceeds the
configured capacity 0. -/
theorem capzero_draw_exceeds_capacity :
    entriesTotal drawCapZero.entries ≤ ((0 : ℕ) : ℕ∞) ∧
    processDrawEntry cfgPlain [] none "u1" 10 "d1" drawCapZero =
      some ({ drawCapZero with entries := [("u1", 2)] }, 2) ∧
    ¬ entriesTotal [("u1", (2 : ℕ∞))] ≤ ((0 : ℕ) : ℕ∞) := by
  refine ⟨by decide, ?_, by decide⟩
  have h2 : ((Int.toNat 2 : ℕ) : ℕ∞) = 2 := by decide
  norm_num [processDrawEntry, drawCapZero, cfgPlain, maxAmountBlocks,
    selectedDrawRestricts, vipBlocks, jsEntriesCalc, entriesTotal, bumpEntry, h2]

theorem ae_false_inactive (cfg : Config) (memberRoles : List String)
    (sel : Option String) (v : ℚ) (drawId : DrawId) (d : Draw)
    (h : d.active = false) :
    amendedEligible cfg memberRoles sel v drawId d = false := by
  simp [amendedEligible, h]

theorem ae_false_min (cfg : Config) (memberRoles : List String)
    (sel : Option String) (v : ℚ) (drawId : DrawId) (d : Draw)
    (h : v < d.minAmount) :
    amendedEligible cfg memberRoles sel v drawId d = false := by
  simp [amendedEligible, not_le.mpr h]

theorem ae_false_max (cfg : Config) (memberRoles : List String)
    (sel : Option String) (v : ℚ) (drawId : DrawId) (d : Draw)
    (h : maxAmountBlocks v d.maxAmount = true) :
    amendedEligible cfg memberRoles sel v drawId d = false := by
  unfold maxAmountBlocks at h
  rcases hM : d.maxAmount with _ | M
  · rw [hM] at h; simp at h
  · rw [hM] at h
    simp only [Bool.and_eq_true, decide_eq_true_eq] at h
    simp [amendedEligible, hM, h.1, not_le.mpr h.2]

theorem ae_false_manual (cfg : Config) (memberRoles : List String)
    (sel : Option String) (v : ℚ) (drawId : DrawId) (d : Draw)
    (h : d.manualEntriesOnly = true) :
    amendedEligible cfg memberRoles sel v drawId d = false := by
  simp [amendedEligible, h]

theorem ae_false_sel (cfg : Config) (memberRoles : List String)
    (sel : Option String) (v : ℚ) (drawId : DrawId) (d : Draw)
    (hres : selectedDrawRestricts sel = true) (hne : sel ≠ some drawId) :
    amendedEligible cfg memberRoles sel v drawId d = false := by
  rcases hs : sel with _ | s
  · rw [hs] at hres; simp [selectedDrawRestricts] at hres
  · rw [hs] at hres hne
    unfold selectedDrawRestricts at hres
    simp only [Bool.and_eq_true, decide_eq_true_eq] at hres
    have hsd : s ≠ drawId := fun he => hne (by rw [he])
    simp [amendedEligible, hres.2, hsd]

theorem ae_false_vip (cfg : Config) (memberRoles : List String)
    (sel : Option String) (v : ℚ) (drawId : DrawId) (d : Draw)
    (h : vipBlocks d.vipOnly cfg.vipRoleId memberRoles = true) :
    amendedEligible cfg memberRoles sel v drawId d = false := by
  unfold vipBlocks at h
  simp only [Bool.and_eq_true] at h
  obtain ⟨hvo, hrest⟩ := h
  rcases hr : cfg.vipRoleId with _ | r
  · rw [hr] at hrest; simp at hrest
  · rw [hr] at hrest
    simp only [Bool.and_eq_true, decide_eq_true_eq] at hrest
    have hcon : memberRoles.contains r = false := by
      rcases hc : memberRoles.contains r with _ | _
      · rfl
      · exact absurd hc (by simpa using hrest.2)
    simp [amendedEligible, hvo, hr]
    intros
    simpa using hcon

theorem amendedEligible_of_guards (cfg : Config) (memberRoles : List String)
    (sel : Option String) (v : ℚ) (drawId : DrawId) (d : Draw)
    (hact : d.active = true) (hle : d.minAmount ≤ v)
    (hblock : maxAmountBlocks v d.maxAmount = false)
    (hman : d.manualEntriesOnly = false)
    (h4 : ¬ (selectedDrawRestricts sel = true ∧ sel ≠ some drawId))
    (h5 : vipBlocks d.vipOnly cfg.vipRoleId memberRoles = false)
    (hsel : sel ≠ some "") (hvip : cfg.vipRoleId ≠ some "") :
    amendedEligible cfg memberRoles sel v drawId d = true := by
  unfold amendedEligible
  rw [hact, hman]
  simp only [Bool.true_and, Bool.not_false, Bool.and_eq_true, decide_eq_true_eq]
  refine ⟨⟨⟨⟨hle, ?_⟩, trivial⟩, ?_⟩, ?_⟩
  · rcases hM : d.maxAmount with _ | M
    · rfl
    · by_cases hM0 : M = 0
      · simp [hM0]
      · have hgt : ¬ (M < v) := by
          intro hgt
          have hb : maxAmountBlocks v d.maxAmount = true := by
            rw [hM]
            simp [maxAmountBlocks, hM0, hgt]
          rw [hb] at hblock
          exact absurd hblock (by simp)
        simp [not_lt.mp hgt]
  · rcases hs : sel with _ | s
    · rfl
    · rw [hs] at h4 hsel
      rw [not_and_or] at h4
      rcases h4 with h | h
      · unfold selectedDrawRestricts at h
        simp only [Bool.and_eq_true, decide_eq_true_eq, not_and_or] at h
        rcases h with h | h
        · exact absurd (by simpa using h) (by simpa using hsel)
        · have : s = "auto" := by simpa using h
          simp [this]
      · have : s = drawId := by
          by_contra hne
          exact h fun he => hne (by injection he)
        simp [this]
  · rcases hvo : d.vipOnly with _ | _
    · rfl
    · unfold vipBlocks at h5
      rw [hvo] at h5
      simp only [Bool.true_and] at h5
      rcases hr : cfg.vipRoleId with _ | r
      · rfl
      · rw [hr] at h5 hvip
        by_cases hr0 : r = ""
        · exact absurd (by rw [hr0]) hvip
        · simp [hr0] at h5
          simp [h5]

/-- C1 (amended): for a positive donation and a draw with positive
`minAmount` (and barring the JS-falsy empty-string corners of
`selectedDraw` and `vipRoleId`), the granted count is exactly
`⌊v / minAmount⌋` clamped to the remaining capacity when the draw is
eligible — eligibility as the claim lists it except that a zero
`maxAmount` is treated as unset — and `0` otherwise; it is never
negative by construction (`ℕ∞`).  The donation's total granted count is
the sum of the per-draw grants. -/
theorem alloc_grant_formula :
    (∀ (cfg : Config) (memberRoles : List String) (sel : Option String)
       (senderId : UserId) (v : ℚ) (drawId : DrawId) (d : Draw),
      0 < d.minAmount → 0 < v → sel ≠ some "" → cfg.vipRoleId ≠ some "" →
      drawGrant cfg memberRoles sel senderId v drawId d =
        if amendedEligible cfg memberRoles sel v drawId d
        then min ((⌊v / d.minAmount⌋.toNat : ℕ) : ℕ∞) (remainingCapacity d)
        else 0) ∧
    (∀ (cfg : Config) (memberRoles : List String) (sel : Option String)
       (senderId : UserId) (v : ℚ) (draws : List (DrawId × Draw))
       (ue : List (DrawId × ℕ∞)),
      (processDraws cfg memberRoles sel senderId v draws ue).2.2 =
        (draws.map (fun p => drawGrant cfg memberRoles sel senderId v p.1 p.2)).sum) := by
  constructor
  · intro cfg memberRoles sel senderId v drawId d hm hv hsel hvip
    have hm0 : d.minAmount ≠ 0 := ne_of_gt hm
    have hcalc : jsEntriesCalc v d.minAmount = ((⌊v / d.minAmount⌋.toNat : ℕ) : ℕ∞) := by
      unfold jsEntriesCalc
      rw [if_neg hm0]
    have hcalc_pos : d.minAmount ≤ v → jsEntriesCalc v d.minAmount ≠ 0 := by
      intro hle h0
      rw [hcalc] at h0
      have hge : (1 : ℚ) ≤ v / d.minAmount := (one_le_div hm).mpr hle
      have hfl : (1 : ℤ) ≤ ⌊v / d.minAmount⌋ := by
        rw [Int.le_floor]
        exact_mod_cast hge
      have hne : ⌊v / d.minAmount⌋.toNat ≠ 0 := by omega
      exact hne (by exact_mod_cast h0)
    unfold drawGrant processDrawEntry
    by_cases h1 : d.active = true
    case neg =>
      rw [if_pos h1, ae_false_inactive cfg memberRoles sel v drawId d
        (Bool.eq_false_iff.mpr h1)]
      simp
    rw [if_neg (not_not_intro h1)]
    by_cases h2 : v < d.minAmount ∨ maxAmountBlocks v d.maxAmount = true
    case pos =>
      rw [if_pos h2]
      rcases h2 with h2 | h2
      · rw [ae_false_min cfg memberRoles sel v drawId d h2]; simp
      · rw [ae_false_max cfg memberRoles sel v drawId d h2]; simp
    rw [if_neg h2]
    obtain ⟨hlt2, hblock2⟩ := not_or.mp h2
    have hle : d.minAmount ≤ v := not_lt.mp hlt2
    have hblock : maxAmountBlocks v d.maxAmount = false := Bool.eq_false_iff.mpr hblock2
    by_cases h3 : d.manualEntriesOnly = true
    case pos =>
      rw [if_pos h3, ae_false_manual cfg memberRoles sel v drawId d h3]
      simp
    rw [if_neg h3]
    by_cases h4 : selectedDrawRestricts sel = true ∧ sel ≠ some drawId
    case pos =>
      rw [if_pos h4, ae_false_sel cfg memberRoles sel v drawId d h4.1 h4.2]
      simp
    rw [if_neg h4]
    by_cases h5 : vipBlocks d.vipOnly cfg.vipRoleId memberRoles = true
    case pos =>
      rw [if_pos h5, ae_false_vip cfg memberRoles sel v drawId d h5]
      simp
    rw [if_neg h5]
    have hel : amendedEligible cfg memberRoles sel v drawId d = true :=
      amendedEligible_of_guards cfg memberRoles sel v drawId d h1 hle hblock
        (Bool.eq_false_iff.mpr h3) h4 (Bool.eq_false_iff.mpr h5) hsel hvip
    rw [hel]
    simp only [if_true]
    rw [if_neg (hcalc_pos hle)]
    unfold remainingCapacity
    rcases hME : d.maxEntries with _ | m
    · simp only [hME]
      rw [hcalc]
      exact (min_eq_left le_top).symm
    · simp only [hME]
      by_cases hm2 : m = 0
      · subst hm2
        simp [hcalc]
      · by_cases hcap : (m : ℕ∞) ≤ entriesTotal d.entries
        case pos =>
          simp [hm2, hcap, tsub_eq_zero_of_le hcap]
        case neg =>
          simp [hm2, hcap, hcalc]
  · intro cfg memberRoles sel senderId v draws
    induction draws with
    | nil => intro ue; simp [processDraws]
    | cons p rest ih =>
      intro ue
      obtain ⟨drawId, draw⟩ := p
      unfold processDraws
      rcases hres : processDrawEntry cfg memberRoles sel senderId v drawId draw with _ | ⟨d2, g⟩ <;>
        simp [hres, ih, drawGrant]

/-- Witness for `alloc_grant_formula`: on the concrete capacity-5 draw
holding 3 entries, the grant formula instance holds with all hypotheses
discharged. -/
theorem alloc_grant_formula_witness :
    (0 : ℚ) < drawCapRoom.minAmount ∧
    drawGrant cfgPlain [] none "u1" 10 "d" drawCapRoom =
      (if amendedEligible cfgPlain [] none 10 "d" drawCapRoom
       then min ((⌊(10 : ℚ) / drawCapRoom.minAmount⌋.toNat : ℕ) : ℕ∞)
         (remainingCapacity drawCapRoom)
       else 0) :=
  ⟨by decide,
   alloc_grant_formula.1 cfgPlain [] none "u1" 10 "d" drawCapRoom
     (by decide) (by decide) (by decide) (by decide)⟩

/-- C1 counterexample: a draw with `maxAmount` *set to `0`* is ineligible
by the claim's rule (`v ≤ maxAmount` fails for a $10 donation), yet the
code treats the zero cap as JS-falsy and grants `⌊10/5⌋ = 2` entries —
so «entries are granted iff [the claim's conditions hold]» is false as
stated. -/
theorem maxzero_draw_grants_despite_claim :
    claimEligible cfgPlain [] none 10 "d1" drawMaxZero = false ∧
    drawGrant cfgPlain [] none "u1" 10 "d1" drawMaxZero = 2 := by
  constructor
  · decide
  · have h2 : ((Int.toNat 2 : ℕ) : ℕ∞) = 2 := by decide
    norm_num [drawGrant, processDrawEntry, drawMaxZero, cfgPlain, maxAmountBlocks,
      selectedDrawRestricts, vipBlocks, jsEntriesCalc, entriesTotal, bumpEntry, h2]

theorem achievementEarned_ach (key : String) (uid : UserId) (u : UserData)
    (x : List String) (users : List (UserId × UserData)) :
    achievementEarned key uid { u with achievements := x } users =
      achievementEarned key uid u users := rfl

theorem achievementEarned_refCount (key : String) (uid : UserId) (u : UserData)
    (users users2 : List (UserId × UserData))
    (h : refCount users2 uid = refCount users uid) :
    achievementEarned key uid u users2 = achievementEarned key uid u users := by
  unfold achievementEarned
  rw [h]

theorem achFold_shape (uid : UserId) (users : List (UserId × UserData)) :
    ∀ (catalog : List String) (u : UserData) (n : ℕ),
      ∃ extra : List String,
        (catalog.foldl (achStep uid users) (u, n)).1 =
          { u with achievements := u.achievements ++ extra } := by
  intro catalog
  induction catalog with
  | nil =>
    intro u n
    exact ⟨[], by simp⟩
  | cons key rest ih =>
    intro u n
    rw [List.foldl_cons]
    unfold achStep
    by_cases hc : u.achievements.contains key
    · simp only [hc, if_true]
      exact ih u n
    · simp only [hc, if_false]
      by_cases he : achievementEarned key uid u users
      · simp only [he, if_true]
        obtain ⟨extra, hex⟩ := ih { u with achievements := u.achievements ++ [key] } (n + 1)
        exact ⟨[key] ++ extra, hex.trans (by simp [List.append_assoc])⟩
      · simp only [he, if_false]
        exact ih u n

theorem achFold_mono (uid : UserId) (users : List (UserId × UserData))
    (catalog : List String) (u : UserData) (n : ℕ) (a : String)
    (ha : a ∈ u.achievements) :
    a ∈ (catalog.foldl (achStep uid users) (u, n)).1.achievements := by
  obtain ⟨extra, hex⟩ := achFold_shape uid users catalog u n
  rw [hex]
  exact List.mem_append_left _ ha

theorem achFold_sat (uid : UserId) (users : List (UserId × UserData)) :
    ∀ (catalog : List String) (u : UserData) (n : ℕ) (k : String),
      k ∈ catalog → achievementEarned k uid u users = true →
      k ∈ (catalog.foldl (achStep uid users) (u, n)).1.achievements := by
  intro catalog
  induction catalog with
  | nil => intro u n k hk; simp at hk
  | cons key rest ih =>
    intro u n k hk hearn
    rw [List.foldl_cons]
    unfold achStep
    rcases List.mem_cons.mp hk with hkk | hkrest
    · subst hkk
      by_cases hc : u.achievements.contains k
      · simp only [hc, if_true]
        exact achFold_mono uid users rest u n k (by simpa using hc)
      · simp only [hc, if_false, hearn, if_true]
        exact achFold_mono uid users rest _ _ k (List.mem_append_right _ (by simp))
    · by_cases hc : u.achievements.contains key
      · simp only [hc, if_true]
        exact ih u n k hkrest hearn
      · simp only [hc, if_false]
        by_cases he : achievementEarned key uid u users
        · simp only [he, if_true]
          exact ih _ _ k hkrest (by rw [achievementEarned_ach]; exact hearn)
        · simp only [he, if_false]
          exact ih u n k hkrest hearn

theorem achFold_fixpoint (uid : UserId) (users : List (UserId × UserData)) :
    ∀ (catalog : List String) (u : UserData) (n : ℕ),
      (∀ k ∈ catalog, achievementEarned k uid u users = true → k ∈ u.achievements) →
      catalog.foldl (achStep uid users) (u, n) = (u, n) := by
  intro catalog
  induction catalog with
  | nil => intro u n _; rfl
  | cons key rest ih =>
    intro u n hsat
    rw [List.foldl_cons]
    unfold achStep
    by_cases hc : u.achievements.contains key
    · simp only [hc, if_true]
      exact ih u n fun k hk => hsat k (List.mem_cons_of_mem _ hk)
    · by_cases he : achievementEarned key uid u users
      · exact absurd (by simpa using hsat key (by simp) he) hc
      · simp only [hc, if_false, he, if_false]
        exact ih u n fun k hk => hsat k (List.mem_cons_of_mem _ hk)

theorem achFold_nodup (uid : UserId) (users : List (UserId × UserData)) :
    ∀ (catalog : List String) (u : UserData) (n : ℕ),
      u.achievements.Nodup →
      (catalog.foldl (achStep uid users) (u, n)).1.achievements.Nodup := by
  intro catalog
  induction catalog with
  | nil => intro u n h; exact h
  | cons key rest ih =>
    intro u n hnd
    rw [List.foldl_cons]
    unfold achStep
    by_cases hc : u.achievements.contains key
    · simp only [hc, if_true]
      exact ih u n hnd
    · simp only [hc, if_false]
      by_cases he : achievementEarned key uid u users
      · simp only [he, if_true]
        refine ih _ _ ?_
        simp only [List.nodup_append, List.nodup_cons]
        exact ⟨hnd, by simp, by simpa using hc⟩
      · simp only [he, if_false]
        exact ih u n hnd

theorem refCount_putEntry (l : List (UserId × UserData)) (k : UserId)
    (w w' : UserData) (x : UserId) (hget : getEntry l k = some w)
    (hrb : w'.referredBy = w.referredBy) :
    refCount (putEntry l k w') x = refCount l x := by
  induction l with
  | nil => simp [getEntry] at hget
  | cons p t ih =>
    obtain ⟨k₀, v₀⟩ := p
    by_cases h0 : k₀ = k
    · subst h0
      simp [getEntry] at hget
      unfold putEntry
      rw [if_pos rfl]
      unfold refCount
      simp only [List.filter_cons]
      have hpr : w'.referredBy = v₀.referredBy := by rw [hrb, hget]
      by_cases hp : v₀.referredBy = some x
      · simp [hp, hpr.trans hp]
      · have hp2 : ¬ (w'.referredBy = some x) := by rw [hpr]; exact hp
        simp [hp, hp2]
    · unfold putEntry
      rw [if_neg h0]
      simp only [getEntry, if_neg h0] at hget
      have htail := ih hget
      unfold refCount at htail ⊢
      simp only [List.filter_cons]
      by_cases hp : v₀.referredBy = some x <;> simp [hp, htail]

theorem putEntry_map_fst (l : List (UserId × UserData)) (k : UserId)
    (w v : UserData) (hget : getEntry l k = some v) :
    (putEntry l k w).map Prod.fst = l.map Prod.fst := by
  induction l with
  | nil => simp [getEntry] at hget
  | cons p t ih =>
    obtain ⟨k₀, v₀⟩ := p
    by_cases h0 : k₀ = k
    · subst h0
      unfold putEntry
      rw [if_pos rfl]
      simp
    · unfold putEntry
      rw [if_neg h0]
      simp only [getEntry, if_neg h0] at hget
      simp [ih hget]

/-- A user table is saturated for `uid` (relative to a catalog) when every
earned achievement of a positive-total `uid` is already recorded. -/
def saturated (catalog : List String) (users : List (UserId × UserData))
    (uid : UserId) : Prop :=
  ∀ u, getEntry users uid = some u → 0 < u.totalDonated →
    ∀ k ∈ catalog, achievementEarned k uid u users = true → k ∈ u.achievements

theorem grantAchievements_shape (catalog : List String) (uid : UserId)
    (users : List (UserId × UserData)) (w : UserData) :
    ∃ extra : List String,
      (grantAchievements catalog uid users w).1 =
        { w with achievements := w.achievements ++ extra } := by
  unfold grantAchievements
  exact achFold_shape uid users catalog w 0

theorem fixStep_cases (catalog : List String)
    (l : List (UserId × UserData)) (n : ℕ) (uid : UserId) :
    (getEntry l uid = none ∧ fixStep catalog (l, n) uid = (l, n)) ∨
    (∃ w, getEntry l uid = some w ∧ ¬ w.totalDonated > 0 ∧
      fixStep catalog (l, n) uid = (l, n)) ∨
    (∃ w, getEntry l uid = some w ∧ w.totalDonated > 0 ∧
      fixStep catalog (l, n) uid =
        (putEntry l uid (grantAchievements catalog uid l w).1,
         n + (grantAchievements catalog uid l w).2)) := by
  unfold fixStep
  rcases hget : getEntry l uid with _ | w
  · exact Or.inl ⟨rfl, rfl⟩
  · by_cases hpos : w.totalDonated > 0
    · refine Or.inr (Or.inr ⟨w, rfl, hpos, ?_⟩)
      simp only [hpos, if_true]
      unfold fixUserAchievements
      rw [hget]
    · refine Or.inr (Or.inl ⟨w, rfl, hpos, ?_⟩)
      simp only [hpos, if_false]

theorem fixStep_map_fst (catalog : List String)
    (l : List (UserId × UserData)) (n : ℕ) (uid : UserId) :
    (fixStep catalog (l, n) uid).1.map Prod.fst = l.map Prod.fst := by
  rcases fixStep_cases catalog l n uid with ⟨_, h⟩ | ⟨w, _, _, h⟩ | ⟨w, hget, _, h⟩
  · rw [h]
  · rw [h]
  · rw [h]
    exact putEntry_map_fst l uid _ w hget

theorem fixStep_preserves_sat (catalog : List String)
    (l : List (UserId × UserData)) (n : ℕ) (uid uid2 : UserId)
    (hsat : saturated catalog l uid) :
    saturated catalog (fixStep catalog (l, n) uid2).1 uid := by
  rcases fixStep_cases catalog l n uid2 with ⟨_, h⟩ | ⟨w, _, _, h⟩ | ⟨w, hget, hpos, h⟩
  · rw [h]; exact hsat
  · rw [h]; exact hsat
  · rw [h]
    obtain ⟨extra, hsh⟩ := grantAchievements_shape catalog uid2 l w
    have hrb : (grantAchievements catalog uid2 l w).1.referredBy = w.referredBy := by
      rw [hsh]
    have hrc : ∀ x,
        refCount (putEntry l uid2 (grantAchievements catalog uid2 l w).1) x =
          refCount l x :=
      fun x => refCount_putEntry l uid2 w _ x hget hrb
    intro u hu hupos k hk hearn
    simp only at hu hearn
    have hEq := achievementEarned_refCount k uid u l
      (putEntry l uid2 (grantAchievements catalog uid2 l w).1) (hrc uid)
    have hearn2 : achievementEarned k uid u l = true := by rw [← hEq]; exact hearn
    by_cases huid : uid = uid2
    · subst huid
      rw [getEntry_putEntry_self] at hu
      rw [Option.some.injEq] at hu
      subst hu
      rw [hsh] at hearn2
      rw [achievementEarned_ach] at hearn2
      show k ∈ (grantAchievements catalog uid l w).1.achievements
      unfold grantAchievements
      exact achFold_sat uid l catalog w 0 k hk hearn2
    · rw [getEntry_putEntry_ne _ _ _ _ huid] at hu
      exact hsat u hu hupos k hk hearn2

theorem fixStep_saturates (catalog : List String)
    (l : List (UserId × UserData)) (n : ℕ) (uid : UserId) :
    saturated catalog (fixStep catalog (l, n) uid).1 uid := by
  rcases fixStep_cases catalog l n uid with ⟨hget, h⟩ | ⟨w, hget, hpos, h⟩ | ⟨w, hget, hpos, h⟩
  · rw [h]
    intro u hu
    rw [hget] at hu
    exact absurd hu (by simp)
  · rw [h]
    intro u hu hupos
    rw [hget, Option.some.injEq] at hu
    subst hu
    exact absurd hupos hpos
  · rw [h]
    obtain ⟨extra, hsh⟩ := grantAchievements_shape catalog uid l w
    have hrb : (grantAchievements catalog uid l w).1.referredBy = w.referredBy := by
      rw [hsh]
    have hrc : ∀ x,
        refCount (putEntry l uid (grantAchievements catalog uid l w).1) x =
          refCount l x :=
      fun x => refCount_putEntry l uid w _ x hget hrb
    intro u hu hupos k hk hearn
    simp only at hu hearn
    rw [getEntry_putEntry_self] at hu
    rw [Option.some.injEq] at hu
    subst hu
    have hEq := achievementEarned_refCount k uid (grantAchievements catalog uid l w).1 l
      (putEntry l uid (grantAchievements catalog uid l w).1) (hrc uid)
    have hearn2 : achievementEarned k uid (grantAchievements catalog uid l w).1 l = true := by
      rw [← hEq]; exact hearn
    rw [hsh] at hearn2
    rw [achievementEarned_ach] at hearn2
    show k ∈ (grantAchievements catalog uid l w).1.achievements
    unfold grantAchievements
    exact achFold_sat uid l catalog w 0 k hk hearn2

theorem fixFold_preserves_sat (catalog : List String) (uid : UserId) :
    ∀ (ids : List UserId) (st : List (UserId × UserData) × ℕ),
      saturated catalog st.1 uid →
      saturated catalog (ids.foldl (fixStep catalog) st).1 uid := by
  intro ids
  induction ids with
  | nil => intro st h; exact h
  | cons uid0 rest ih =>
    intro st h
    rw [List.foldl_cons]
    exact ih _ (by
      obtain ⟨l, n⟩ := st
      exact fixStep_preserves_sat catalog l n uid uid0 h)

theorem fixFold_sat_of_mem (catalog : List String) (uid : UserId) :
    ∀ (ids : List UserId) (st : List (UserId × UserData) × ℕ),
      uid ∈ ids →
      saturated catalog (ids.foldl (fixStep catalog) st).1 uid := by
  intro ids
  induction ids with
  | nil => intro st h; simp at h
  | cons uid0 rest ih =>
    intro st hmem
    rw [List.foldl_cons]
    rcases List.mem_cons.mp hmem with h | h
    · subst h
      refine fixFold_preserves_sat catalog uid rest _ ?_
      obtain ⟨l, n⟩ := st
      exact fixStep_saturates catalog l n uid
    · exact ih _ h

theorem fixFold_map_fst (catalog : List String) :
    ∀ (ids : List UserId) (st : List (UserId × UserData) × ℕ),
      (ids.foldl (fixStep catalog) st).1.map Prod.fst = st.1.map Prod.fst := by
  intro ids
  induction ids with
  | nil => intro st; rfl
  | cons uid0 rest ih =>
    intro st
    rw [List.foldl_cons, ih]
    obtain ⟨l, n⟩ := st
    exact fixStep_map_fst catalog l n uid0

theorem fixFold_id_of_sat (catalog : List String) :
    ∀ (ids : List UserId) (l : List (UserId × UserData)) (n : ℕ),
      (∀ uid, saturated catalog l uid) →
      ids.foldl (fixStep catalog) (l, n) = (l, n) := by
  intro ids
  induction ids with
  | nil => intro l n _; rfl
  | cons uid0 rest ih =>
    intro l n hsat
    rw [List.foldl_cons]
    have hstep : fixStep catalog (l, n) uid0 = (l, n) := by
      rcases fixStep_cases catalog l n uid0 with ⟨_, h⟩ | ⟨w, _, _, h⟩ | ⟨w, hget, hpos, h⟩
      · exact h
      · exact h
      · have hfix : grantAchievements catalog uid0 l w = (w, 0) := by
          unfold grantAchievements
          exact achFold_fixpoint uid0 l catalog w 0
            (fun k hk he => hsat uid0 w hget hpos k hk he)
        rw [h, hfix]
        simp [putEntry_getEntry_self l uid0 w hget]
    rw [hstep]
    exact ih l n hsat

/-- C9: achievement grants are idempotent.  (i) The granting loop
preserves the no-duplicates property of a user's achievement list, and
never re-appends a held key (a held key is skipped, so the list grows
only by fresh keys).  (ii) Re-running the evaluation on a user who was
just evaluated grants nothing and leaves the record unchanged.  (iii) A
second run of the admin all-users repair on the unchanged state grants
zero new achievements and leaves every user untouched. -/
theorem achievement_idempotence :
    (∀ (catalog : List String) (uid : UserId)
       (users : List (UserId × UserData)) (u : UserData),
      u.achievements.Nodup →
      ((grantAchievements catalog uid users u).1).achievements.Nodup) ∧
    (∀ (catalog : List String) (uid : UserId)
       (users : List (UserId × UserData)) (u : UserData),
      grantAchievements catalog uid users ((grantAchievements catalog uid users u).1) =
        ((grantAchievements catalog uid users u).1, 0)) ∧
    (∀ (catalog : List String) (users : List (UserId × UserData)),
      fixAllUsers catalog (fixAllUsers catalog users).1 =
        ((fixAllUsers catalog users).1, 0)) := by
  refine ⟨?_, ?_, ?_⟩
  · intro catalog uid users u hnd
    exact achFold_nodup uid users catalog u 0 hnd
  · intro catalog uid users u
    unfold grantAchievements
    refine achFold_fixpoint uid users catalog _ 0 ?_
    intro k hk hearn
    obtain ⟨extra, hex⟩ := achFold_shape uid users catalog u 0
    have hearn2 : achievementEarned k uid u users = true := by
      rw [← hearn, hex]
      exact achievementEarned_ach k uid u _ users
    exact achFold_sat uid users catalog u 0 k hk hearn2
  · intro catalog users
    have hsat : ∀ uid, saturated catalog (fixAllUsers catalog users).1 uid := by
      intro uid
      by_cases hin : uid ∈ users.map Prod.fst
      · exact fixFold_sat_of_mem catalog uid (users.map Prod.fst) (users, 0) hin
      · intro u hu hupos k hk hearn
        exfalso
        apply hin
        have hmem := getEntry_mem _ _ _ hu
        have : uid ∈ (fixAllUsers catalog users).1.map Prod.fst :=
          List.mem_map.mpr ⟨(uid, u), hmem, rfl⟩
        rwa [show (fixAllUsers catalog users).1.map Prod.fst = users.map Prod.fst from
          fixFold_map_fst catalog (users.map Prod.fst) (users, 0)] at this
    unfold fixAllUsers
    rw [fixFold_map_fst catalog (users.map Prod.fst) (users, 0)]
    exact fixFold_id_of_sat catalog (users.map Prod.fst) _ 0 (by
      have := hsat
      unfold fixAllUsers at this
      exact this)

/-- A concrete donor: fresh user with a positive donation total. -/
def userDon : UserData := { freshUser with totalDonated := 10 }

/-- Witness for `achievement_idempotence`: the no-duplicates preservation
applied to a concrete user with an empty (duplicate-free) achievement
list and the real catalog keys. -/
theorem achievement_idempotence_witness :
    userDon.achievements.Nodup ∧
    ((grantAchievements ["first_steps", "generous_donor", "lucky_winner"] "u1"
        [("u1", userDon)] userDon).1).achievements.Nodup :=
  ⟨by decide,
   achievement_idempotence.1 ["first_steps", "generous_donor", "lucky_winner"] "u1"
     [("u1", userDon)] userDon (by decide)⟩

end DonorRewards
